import Mathlib

/-!
# Verification of the slskdn maintenance scripts

A shallow embedding, in Lean 4, of the repository's Python scripts:

* `update_task_checkboxes.py` — the Checkbox Updater (`update_file_checkboxes`);
* `validate_tasks.py` — the Task Extractor, identifier extraction
  (`extract_task_id`), the Task Validator (`check_git_commits`,
  `check_code_exists`, the status computation of `main`);
* `test-data/slskdn-test-fixtures/meta/fetch_media.py` — the Fixture
  Fetcher (`download`);
* `test-data/slskdn-test-fixtures/meta/write_checksums.py` — the Checksum
  Writer.

Python strings are modelled as `List Char` (ASCII semantics for the
character classes `\s`, `\d`, `\w`, `[a-zA-Z]`, `str.lower`, `str.upper`;
every concrete string appearing in the scripts and in the theorems below is
ASCII).  External effects (subprocess invocations, the network, the file
system) are modelled as explicit oracle parameters: a call that can raise
an exception is an `Except`/`Option` value.  All definitions are
executable.
-/

/-! ## Python character classes and string helpers -/

/-- Python's `\s` on ASCII text: the six ASCII whitespace characters
(also what `str.strip` removes). -/
def pySpace (c : Char) : Bool :=
  c = ' ' || c = '\t' || c = '\n' || c = '\r' || c = '\x0b' || c = '\x0c'

/-- Python's `\d` on ASCII text. -/
def pyDigit (c : Char) : Bool := '0' ≤ c && c ≤ '9'

/-- Python's `[a-zA-Z]`. -/
def pyAlpha (c : Char) : Bool := ('a' ≤ c && c ≤ 'z') || ('A' ≤ c && c ≤ 'Z')

/-- Python's `\w` on ASCII text: letters, digits and underscore. -/
def pyWord (c : Char) : Bool := pyAlpha c || pyDigit c || c = '_'

/-- Shorthand: a Lean string literal as a `List Char`. -/
def strL (s : String) : List Char := s.toList

/-- `Char.toLower` mapped over a string: Python `str.lower` on ASCII. -/
def lowerL (s : List Char) : List Char := s.map Char.toLower

/-- `Char.toUpper` mapped over a string: Python `str.upper` on ASCII. -/
def upperL (s : List Char) : List Char := s.map Char.toUpper

/-- Python `str.strip()`: drop whitespace from both ends. -/
def pyStrip (s : List Char) : List Char :=
  ((s.dropWhile pySpace).reverse.dropWhile pySpace).reverse

/-- `isPrefixL pat s`: `pat` is a prefix of `s` (Boolean). -/
def isPrefixL : List Char → List Char → Bool
  | [], _ => true
  | _ :: _, [] => false
  | a :: as, b :: bs => a = b && isPrefixL as bs

/-- Python's `pat in s` substring test (for the non-empty patterns the
scripts use). -/
def strContains (pat : List Char) : List Char → Bool
  | [] => isPrefixL pat []
  | c :: rest => isPrefixL pat (c :: rest) || strContains pat rest

/-- Python's `s.replace(pat, rep, 1)` for a non-empty `pat`: replace the
leftmost occurrence of `pat` (if any) by `rep`. -/
def replaceFirst (pat rep : List Char) : List Char → List Char
  | [] => []
  | c :: rest =>
    if isPrefixL pat (c :: rest) then rep ++ (c :: rest).drop pat.length
    else c :: replaceFirst pat rep rest

/-- The number of (possibly overlapping) occurrences of `pat` in `s`:
the number of positions of `s` at which `pat` is a prefix of the rest. -/
def occCount (pat : List Char) : List Char → Nat
  | [] => if isPrefixL pat [] then 1 else 0
  | c :: rest => (if isPrefixL pat (c :: rest) then 1 else 0) + occCount pat rest

/-- The position of the leftmost occurrence of `pat` in `s`, if any. -/
def firstIdx (pat : List Char) : List Char → Option Nat
  | [] => none
  | c :: rest =>
    if isPrefixL pat (c :: rest) then some 0 else (firstIdx pat rest).map (· + 1)

/-! ## Checkbox Updater (`update_task_checkboxes.py`)

`update_file_checkboxes(filepath, tasks_to_check)` reads the file's lines,
then for each task of kind `checkbox` whose 0-based line index
`task['line'] - 1` is in range and whose line still contains `'[ ]'`,
replaces the first `'[ ]'` of that line by `'[x]'` and counts it.  Task
records carry the 1-based line numbers produced by the extractor's
`enumerate(lines, 1)`. -/

/-- The `'type'` field of a task record: `'checkbox'` or `'todo'`. -/
inductive TaskType : Type
  | checkbox : TaskType
  | todo : TaskType

deriving instance DecidableEq for TaskType

/-- The part of a task record that `update_file_checkboxes` reads:
its (1-based) line number and its kind. -/
structure TaskRec : Type where
  line : Nat
  type : TaskType

deriving instance DecidableEq for TaskRec

/-- The literal `'[ ]'` of the scripts. -/
def uncheckedTok : List Char := ['[', ' ', ']']

/-- The literal `'[x]'` of the scripts. -/
def checkedTok : List Char := ['[', 'x', ']']

/-- One iteration of the `for task_info in tasks_to_check` loop of
`update_file_checkboxes`: the state is the current list of lines together
with `updated_count`. -/
def updateStep (acc : List (List Char) × Nat) (t : TaskRec) :
    List (List Char) × Nat :=
  if t.type = TaskType.checkbox then
    if h : t.line - 1 < acc.1.length then
      let orig := acc.1.get ⟨t.line - 1, h⟩
      if strContains uncheckedTok orig then
        let nl := replaceFirst uncheckedTok checkedTok orig
        if nl ≠ orig then (acc.1.set (t.line - 1) nl, acc.2 + 1) else acc
      else acc
    else acc
  else acc

/-- `update_file_checkboxes`: the final lines of the file and the number of
checkboxes flipped.  (The Python function writes the lines back only when
at least one changed, which yields the same final file content.) -/
def update_file_checkboxes (lines : List (List Char)) (tasks : List TaskRec) :
    List (List Char) × Nat :=
  tasks.foldl updateStep (lines, 0)

/-! ## Identifier extraction (`validate_tasks.py`, `extract_task_id`)

`extract_task_id` runs `re.search(pattern, text, re.IGNORECASE)` over an
ordered list of five patterns and returns `match.group(1).upper()` for the
first pattern that matches.  Each pattern is compiled here to a hand-rolled
matcher: `reSearch m none text` is `re.search`, trying `m` at every start
position from the left, where `m` receives the character preceding the
start position (for `\b` word boundaries) and the rest of the text.  The
compilation is faithful because in every pattern each repeated class
(`\w+`, `\d+`, `[A-Z]+`) is followed by a literal outside the class (or by
`\b`), so the regex engine's greedy match of the repetition is exactly the
maximal run and backtracking can never produce a different match. -/

/-- `\b` before a word character at the start of an attempt: holds at the
start of the text or after a non-word character. -/
def wordStart (prev : Option Char) : Bool :=
  match prev with
  | none => true
  | some c => !pyWord c

/-- `\b` after a word character: holds at the end of the text or before a
non-word character. -/
def wordEndB : List Char → Bool
  | [] => true
  | c :: _ => !pyWord c

/-- Matcher for `\b(T-\w+-\d+)\b` (case-insensitive) at one position. -/
def matT (prev : Option Char) : List Char → Option (List Char)
  | c :: '-' :: rest =>
    if wordStart prev && (c = 'T' || c = 't') then
      let w := rest.takeWhile pyWord
      let r2 := rest.dropWhile pyWord
      if w.isEmpty then none else
      match r2 with
      | '-' :: r3 =>
        let d := r3.takeWhile pyDigit
        let r4 := r3.dropWhile pyDigit
        if !d.isEmpty && wordEndB r4 then some (c :: '-' :: (w ++ '-' :: d))
        else none
      | _ => none
    else none
  | _ => none

/-- Matcher for `\b(H-\d+)\b` (case-insensitive) at one position. -/
def matH (prev : Option Char) : List Char → Option (List Char)
  | c :: '-' :: rest =>
    if wordStart prev && (c = 'H' || c = 'h') then
      let d := rest.takeWhile pyDigit
      let r4 := rest.dropWhile pyDigit
      if !d.isEmpty && wordEndB r4 then some (c :: '-' :: d) else none
    else none
  | _ => none

/-- Matcher for `\b(SF-\d+)\b` (case-insensitive) at one position. -/
def matSF (prev : Option Char) : List Char → Option (List Char)
  | c1 :: c2 :: '-' :: rest =>
    if wordStart prev && (c1 = 'S' || c1 = 's') && (c2 = 'F' || c2 = 'f') then
      let d := rest.takeWhile pyDigit
      let r4 := rest.dropWhile pyDigit
      if !d.isEmpty && wordEndB r4 then some (c1 :: c2 :: '-' :: d) else none
    else none
  | _ => none

/-- Matcher for `\b(TASK-\d+)\b` (case-insensitive) at one position. -/
def matTASK (prev : Option Char) : List Char → Option (List Char)
  | c1 :: c2 :: c3 :: c4 :: '-' :: rest =>
    if wordStart prev && (c1 = 'T' || c1 = 't') && (c2 = 'A' || c2 = 'a')
        && (c3 = 'S' || c3 = 's') && (c4 = 'K' || c4 = 'k') then
      let d := rest.takeWhile pyDigit
      let r4 := rest.dropWhile pyDigit
      if !d.isEmpty && wordEndB r4 then
        some (c1 :: c2 :: c3 :: c4 :: '-' :: d)
      else none
    else none
  | _ => none

/-- Matcher for `\b(#[A-Z]+-\d+)\b` (case-insensitive) at one position.
Note the leading `\b`: since `#` is not a word character, the boundary
holds only when the preceding character is a word character, so this
pattern can never match at the start of the text. -/
def matHash (prev : Option Char) : List Char → Option (List Char)
  | '#' :: rest =>
    match prev with
    | some p =>
      if pyWord p then
        let a := rest.takeWhile pyAlpha
        let r2 := rest.dropWhile pyAlpha
        if a.isEmpty then none else
        match r2 with
        | '-' :: r3 =>
          let d := r3.takeWhile pyDigit
          let r4 := r3.dropWhile pyDigit
          if !d.isEmpty && wordEndB r4 then some ('#' :: (a ++ '-' :: d))
          else none
        | _ => none
      else none
    | none => none
  | _ => none

/-- `re.search`: try the matcher at every start position, left to right,
threading the previous character for word-boundary tests. -/
def reSearch (m : Option Char → List Char → Option (List Char)) :
    Option Char → List Char → Option (List Char)
  | prev, [] => m prev []
  | prev, c :: rest =>
    match m prev (c :: rest) with
    | some g => some g
    | none => reSearch m (some c) rest

/-- The ordered pattern list of `extract_task_id`. -/
def taskIdPatterns : List (Option Char → List Char → Option (List Char)) :=
  [matT, matH, matSF, matTASK, matHash]

/-- `extract_task_id(text)`: first pattern that matches wins; the captured
group is upper-cased. -/
def extract_task_id (text : List Char) : Option (List Char) :=
  match taskIdPatterns.findSome? (fun m => reSearch m none text) with
  | some g => some (upperL g)
  | none => none

/-! ## Task Validator (`validate_tasks.py`)

External lookups are oracles: `gitLog id` models
`subprocess.run(['git','log','--all','--grep',id,'--oneline'], ...)` —
`Except.ok out` is a completed process with standard output `out`,
`Except.error e` an exception with message `e` (e.g. a timeout);
`grep kw` models `subprocess.run(['git','grep','-i',kw,...], timeout=5)` —
`none` is an exception, `some (rc, out)` a completed process with return
code `rc` and standard output `out`. -/

/-- `run_git_command`: the stripped standard output on success, the string
`"ERROR: {e}"` when the subprocess call raised `e`. -/
def run_git_command (res : Except (List Char) (List Char)) : List Char :=
  match res with
  | Except.ok out => pyStrip out
  | Except.error e => strL "ERROR: " ++ e

/-- `check_git_commits(task_id)`:
`bool(output and 'ERROR' not in output)` over `run_git_command`. -/
def check_git_commits (gitLog : List Char → Except (List Char) (List Char))
    (task_id : List Char) : Bool :=
  if task_id.isEmpty then false
  else
    let output := run_git_command (gitLog task_id)
    !output.isEmpty && !strContains (strL "ERROR") output

/-- `re.findall(r'\b[a-zA-Z]{5,}\b', text)`: the maximal alphabetic runs
of `text` that are bounded by non-word characters (or the ends of the
text) and have length at least 5.  The Boolean argument is whether the
previous character was a word character. -/
def alphaWords : Bool → List Char → List (List Char)
  | _, [] => []
  | prevWord, c :: rest =>
    if pyAlpha c && !prevWord then
      let run := c :: rest.takeWhile pyAlpha
      let rest2 := rest.dropWhile pyAlpha
      if 5 ≤ run.length && wordEndB rest2 then run :: alphaWords true rest2
      else alphaWords true rest2
    else alphaWords (pyWord c) rest
termination_by _ s => s.length
decreasing_by
  all_goals simp only [List.length_cons]
  · exact Nat.lt_succ_of_le (List.Sublist.length_le (List.dropWhile_sublist _))
  · exact Nat.lt_succ_of_le (List.Sublist.length_le (List.dropWhile_sublist _))
  · exact Nat.lt_succ_self _

/-- The `stop_words` set of `check_code_exists`. -/
def stop_words : List (List Char) :=
  [strL "this", strL "that", strL "with", strL "from", strL "have",
   strL "will", strL "should", strL "would", strL "could",
   strL "implement", strL "add", strL "create", strL "update", strL "fix",
   strL "remove", strL "delete", strL "change"]

/-- The keyword selection of `check_code_exists`: alphabetic words of the
lower-cased task text, keep those not in `stop_words` of length > 4, take
the first 3. -/
def importantKeywords (task_text : List Char) : List (List Char) :=
  ((alphaWords false (lowerL task_text)).filter
    (fun kw => !stop_words.contains kw && 4 < kw.length)).take 3

/-- The `for keyword in important_keywords` loop of `check_code_exists`:
stop with `True` at the first keyword whose `git grep` exits 0 with
non-blank output; an exception (`none`) is caught by the surrounding
`try`/`except: pass`, abandoning the loop with the flag still `False`. -/
def grepLoop (grep : List Char → Option (Int × List Char)) :
    List (List Char) → Bool
  | [] => false
  | kw :: rest =>
    match grep kw with
    | none => false
    | some (rc, out) =>
      if rc = 0 && !(pyStrip out).isEmpty then true else grepLoop grep rest

/-- The result dictionary of `check_code_exists`. -/
structure CodeCheck : Type where
  has_implementation : Bool
  has_tests : Bool
  has_config : Bool

deriving instance DecidableEq for CodeCheck

/-- `check_code_exists(task_text, filepath)`.  The `filepath` parameter is
unused, as in the source. -/
def check_code_exists (grep : List Char → Option (Int × List Char))
    (task_text : List Char) (_filepath : List Char) : CodeCheck :=
  let important := importantKeywords task_text
  if important.isEmpty then ⟨false, false, false⟩
  else ⟨grepLoop grep important, false, false⟩

/-- `any(code_check.values())` over the three Booleans of the dictionary. -/
def anyCode (c : CodeCheck) : Bool :=
  c.has_implementation || c.has_tests || c.has_config

/-- The `status` values a validation can carry. -/
inductive Status : Type
  | unknown : Status
  | likely_complete : Status
  | pending : Status

deriving instance DecidableEq for Status

/-- A full task record as the extractor builds it: file path, 1-based line
number, stripped line text, kind, optional identifier. -/
structure MdTask : Type where
  file : List Char
  line : Nat
  text : List Char
  type : TaskType
  task_id : Option (List Char)

/-- The validation record `main` builds for one task. -/
structure Validation : Type where
  has_commit : Bool
  has_code : CodeCheck
  status : Status

deriving instance DecidableEq for Validation

/-- The loop body of `main` in `validate_tasks.py` for one task: commit
check only when `task['task_id']` is truthy, then the code check, then
`likely_complete` iff `has_commit or any(code_check.values())`, else
`pending`. -/
def validate_one (gitLog : List Char → Except (List Char) (List Char))
    (grep : List Char → Option (Int × List Char)) (t : MdTask) : Validation :=
  let has_commit :=
    match t.task_id with
    | some i => if i.isEmpty then false else check_git_commits gitLog i
    | none => false
  let code_check := check_code_exists grep t.text t.file
  let status :=
    if has_commit || anyCode code_check then Status.likely_complete
    else Status.pending
  ⟨has_commit, code_check, status⟩

/-- The whole validation loop of `main`: one validation per task, in
order. -/
def validate_tasks (gitLog : List Char → Except (List Char) (List Char))
    (grep : List Char → Option (Int × List Char)) (tasks : List MdTask) :
    List Validation :=
  tasks.map (validate_one gitLog grep)

/-! ## Task Extractor (`validate_tasks.py`, `extract_unchecked_tasks`)

Per-line classification.  The checkbox patterns are
`r'^\s*[-*]\s*\[ \]'` and `r'^\s*\d+\.\s*\[ \]'`; both compile to
drop-maximal-run matchers because each `\s*`/`\d+` is followed by a
literal outside its class. -/

/-- `re.search(r'^\s*[-*]\s*\[ \]', line)` as a Boolean. -/
def matchesBullet (line : List Char) : Bool :=
  match line.dropWhile pySpace with
  | c :: rest =>
    (c = '-' || c = '*') && isPrefixL uncheckedTok (rest.dropWhile pySpace)
  | [] => false

/-- `re.search(r'^\s*\d+\.\s*\[ \]', line)` as a Boolean: maximal
whitespace, then a non-empty maximal digit run, then a literal `.`, then
whitespace, then the `[ ]` token. -/
def matchesNumbered (line : List Char) : Bool :=
  let r := line.dropWhile pySpace
  let ds := r.takeWhile pyDigit
  !ds.isEmpty &&
    (match r.dropWhile pyDigit with
     | c :: r3 => c = '.' && isPrefixL uncheckedTok (r3.dropWhile pySpace)
     | [] => false)

/-- `re.search(r'\(REJECT|\(WARNING|\(ACCEPT', line)` as a Boolean. -/
def hasAnnotationMarker (line : List Char) : Bool :=
  strContains (strL "(REJECT") line || strContains (strL "(WARNING") line
    || strContains (strL "(ACCEPT") line

/-- Matcher for one alternation branch of
`\b(TODO|FIXME|XXX|HACK|PLANNED|FUTURE)\b` (case-insensitive) at one
position: `w` is the upper-case keyword. -/
def matWord (w : List Char) (prev : Option Char) (s : List Char) :
    Option (List Char) :=
  if wordStart prev && upperL (s.take w.length) = w && wordEndB (s.drop w.length)
  then some w else none

/-- The keyword alternatives of the TODO pattern. -/
def todoWords : List (List Char) :=
  [strL "TODO", strL "FIXME", strL "XXX", strL "HACK", strL "PLANNED",
   strL "FUTURE"]

/-- `re.search(r'\b(TODO|FIXME|XXX|HACK|PLANNED|FUTURE)\b', line,
re.IGNORECASE)` as a Boolean. -/
def hasTodoMarker (line : List Char) : Bool :=
  todoWords.any (fun w => (reSearch (matWord w) none line).isSome)

/-- `any(x in line.lower() for x in ['todo.md', 'note that',
'project note', 'see note'])`. -/
def todoFalsePositive (line : List Char) : Bool :=
  [strL "todo.md", strL "note that", strL "project note", strL "see note"].any
    (fun p => strContains p (lowerL line))

/-- What the extractor records a line as: an unchecked-checkbox task, a
todo-marker task, or nothing. -/
def classify_line (line : List Char) : Option TaskType :=
  if matchesBullet line || matchesNumbered line then
    if hasAnnotationMarker line then none
    else if (pyStrip line).length < 20 then none
    else some TaskType.checkbox
  else if strContains (strL "[x]") (lowerL line) then none
  else if hasTodoMarker line then
    if todoFalsePositive line then none else some TaskType.todo
  else none

/-- The per-file loop of `extract_unchecked_tasks` over the numbered lines
(`enumerate(lines, 1)`), building full task records. -/
def extractFrom (file : List Char) : Nat → List (List Char) → List MdTask
  | _, [] => []
  | i, line :: rest =>
    match classify_line line with
    | some k =>
      ⟨file, i, pyStrip line, k, extract_task_id line⟩ :: extractFrom file (i + 1) rest
    | none => extractFrom file (i + 1) rest

/-- `extract_unchecked_tasks` on a file that is not skipped by the
`skip_patterns` filename filter. -/
def extract_unchecked_tasks (file : List Char) (lines : List (List Char)) :
    List MdTask :=
  extractFrom file 1 lines

/-! ## Fixture Fetcher (`fetch_media.py`, `download`)

The network is an oracle `net : Nat → Except E D`: the outcome of the
`urlopen`+`read` of attempt number `a` (attempts are numbered from 1).
`download` also records how many attempts ran, the back-off sleeps
performed between consecutive attempts (in seconds, in order), and the
data written, so the claims about its retry discipline are statable. -/

/-- The `while True` retry loop of `download`, entered with
`attempt = 1`: on failure, re-raise once `attempt >= retries`, otherwise
sleep `2 * attempt` seconds and retry. -/
def downloadLoop {E D : Type} (net : Nat → Except E D) (retries : Nat)
    (attempt : Nat) (waits : List Nat) : Except E D × Nat × List Nat :=
  match net attempt with
  | Except.ok d => (Except.ok d, attempt, waits)
  | Except.error e =>
    if _h : retries ≤ attempt then (Except.error e, attempt, waits)
    else downloadLoop net retries (attempt + 1) (waits ++ [2 * attempt])
termination_by retries - attempt
decreasing_by omega

/-- The observable outcome of one `download(url, out_path, retries)` call:
whether it returned or raised, the bytes written to `out_path` (if any),
the number of attempts performed and the sleeps between them. -/
structure DLResult (E D : Type) : Type where
  outcome : Except E Unit
  written : Option D
  attempts : Nat
  waits : List Nat

/-- `download`: return immediately when the destination already exists
non-empty (no attempt, nothing written), otherwise run the retry loop and
write the body on success. -/
def download {E D : Type} (net : Nat → Except E D) (alreadyPresent : Bool)
    (retries : Nat) : DLResult E D :=
  if alreadyPresent then ⟨Except.ok (), none, 0, []⟩
  else
    match downloadLoop net retries 1 [] with
    | (Except.ok d, a, ws) => ⟨Except.ok (), some d, a, ws⟩
    | (Except.error e, a, ws) => ⟨Except.error e, none, a, ws⟩

/-! ## Checksum Writer (`write_checksums.py`)

The directory tree is an oracle: the list of entries `ROOT.rglob('*')`
yields, each with its path components relative to `ROOT` and whether it is
a regular file; the digest of a file is an oracle `digest` (the script
streams the file through SHA-256 in 1 MiB chunks — the content hashing
itself is I/O and is not re-modelled).  `rootParts` are the components of
`ROOT` itself, since the script tests `'.git' in p.parts` on the absolute
path. -/

/-- One entry of the `rglob` enumeration. -/
structure FsEntry : Type where
  relParts : List String
  isFile : Bool

deriving instance DecidableEq for FsEntry

/-- `p.name`: the last path component. -/
def entryName (e : FsEntry) : String := e.relParts.getLast?.getD ""

/-- The index of the last `'.'` in a name (`str.rfind`). -/
def rfindDot : List Char → Option Nat
  | [] => none
  | c :: rest =>
    match rfindDot rest with
    | some i => some (i + 1)
    | none => if c = '.' then some 0 else none

/-- `PurePath.suffix` as pathlib computes it: the part of the name from
its last dot, provided that dot is neither the first nor the last
character; `''` otherwise. -/
def pySuffix (name : List Char) : List Char :=
  match rfindDot name with
  | some i => if 0 < i && i < name.length - 1 then name.drop i else []
  | none => []

/-- `str(p.relative_to(ROOT))` with `/` as separator. -/
def relString (e : FsEntry) : String := String.intercalate "/" e.relParts

/-- The `{'checksums.sha256', '_download_list.tsv'}` name-exclusion set. -/
def excludedNames : List String := ["checksums.sha256", "_download_list.tsv"]

/-- The body of the collection loop of `write_checksums.py`: keep `p` iff
it is a regular file, its name is not excluded, no component of its
(absolute) path is `.git`, and its suffix is not `.zip`. -/
def keepEntry (rootParts : List String) (e : FsEntry) : Bool :=
  e.isFile && !excludedNames.contains (entryName e)
    && !(rootParts ++ e.relParts).contains ".git"
    && !(pySuffix (entryName e).toList = strL ".zip")

/-- Lexicographic comparison of strings by code point, as Python's `<` on
`str` (the sort key is `str(p.relative_to(ROOT))`). -/
def lexLe : List Char → List Char → Bool
  | [], _ => true
  | _ :: _, [] => false
  | a :: as, b :: bs => if a < b then true else if b < a then false else lexLe as bs

/-- The sort key order on entries. -/
def relLe (a b : FsEntry) : Bool := lexLe (relString a).toList (relString b).toList

/-- `paths` after the collection loop and `paths.sort(key=...)`
(`list.sort` is a stable sort by the key; `List.mergeSort` is stable). -/
def sortedEntries (rootParts : List String) (found : List FsEntry) :
    List FsEntry :=
  (found.filter (keepEntry rootParts)).mergeSort relLe

/-- One output line: `f"{digest}  {rel}"` (two spaces). -/
def checksumLine (digest : FsEntry → String) (e : FsEntry) : String :=
  digest e ++ "  " ++ relString e

/-- The `lines` list the script builds. -/
def checksum_lines (rootParts : List String) (digest : FsEntry → String)
    (found : List FsEntry) : List String :=
  (sortedEntries rootParts found).map (checksumLine digest)

/-- `OUT.write_text('\n'.join(lines) + '\n')`: the full text written. -/
def checksums_output (rootParts : List String) (digest : FsEntry → String)
    (found : List FsEntry) : String :=
  String.intercalate "\n" (checksum_lines rootParts digest found) ++ "\n"

/-! ## Specification-side predicates

Two claims are refinements: they describe a criterion in the
specification's own words, to be compared with the code's.  The following
definitions transcribe those words (they are deliberately *not* read off
the code). -/

/-- The specification's criterion for an unchecked-checkbox task line:
the line starts, after optional whitespace, with a list marker (`-`, `*`,
or digits followed by `.`) followed (possibly after whitespace) by the
unchecked-box token `[ ]`; it contains none of the annotation markers
`(REJECT` / `(WARNING` / `(ACCEPT`; and its trimmed length is at least
20 characters. -/
def specCheckboxLine (line : List Char) : Prop :=
  (∃ ws mk gap rest : List Char,
    (∀ c ∈ ws, pySpace c = true) ∧ (∀ c ∈ gap, pySpace c = true) ∧
    (mk = ['-'] ∨ mk = ['*'] ∨
      ∃ ds : List Char, ds ≠ [] ∧ (∀ c ∈ ds, pyDigit c = true) ∧ mk = ds ++ ['.']) ∧
    line = ws ++ mk ++ gap ++ uncheckedTok ++ rest) ∧
  strContains (strL "(REJECT") line = false ∧
  strContains (strL "(WARNING") line = false ∧
  strContains (strL "(ACCEPT") line = false ∧
  20 ≤ (pyStrip line).length

/-- The specification's inclusion criterion for the Checksum Writer: a
regular file that is not the checksum output file itself, has no
version-control component on its path, and is not an archive file (by
extension).  (Note: unlike the code, this does not mention
`_download_list.tsv`.) -/
def specIncludedEntry (rootParts : List String) (e : FsEntry) : Bool :=
  e.isFile && !(entryName e = "checksums.sha256")
    && !(rootParts ++ e.relParts).contains ".git"
    && !(pySuffix (entryName e).toList = strL ".zip")

/-- The specification's inclusion criterion amended with the one further
exclusion the code applies: the download-list helper file
`_download_list.tsv`. -/
def amendedIncludedEntry (rootParts : List String) (e : FsEntry) : Bool :=
  specIncludedEntry rootParts e && !(entryName e = "_download_list.tsv")

/-! ## General lemmas about the string helpers -/

theorem isPrefixL_iff (p s : List Char) :
    isPrefixL p s = true ↔ ∃ t, s = p ++ t := by
  induction p generalizing s with
  | nil => simp [isPrefixL]
  | cons a as ih =>
    cases s with
    | nil =>
      simp only [isPrefixL, List.cons_append]
      constructor
      · intro h; cases h
      · rintro ⟨t, h⟩; cases h
    | cons b bs =>
      simp only [isPrefixL, Bool.and_eq_true, decide_eq_true_eq, ih,
        List.cons_append, List.cons.injEq]
      constructor
      · rintro ⟨rfl, t, rfl⟩; exact ⟨t, rfl, rfl⟩
      · rintro ⟨t, rfl, rfl⟩; exact ⟨rfl, t, rfl⟩

theorem isPrefixL_append (p t : List Char) : isPrefixL p (p ++ t) = true :=
  (isPrefixL_iff p (p ++ t)).mpr ⟨t, rfl⟩

theorem strContains_iff_occCount (p s : List Char) :
    strContains p s = true ↔ 0 < occCount p s := by
  induction s with
  | nil =>
    simp only [strContains, occCount]
    cases h : isPrefixL p [] <;> simp [h]
  | cons c rest ih =>
    simp only [strContains, occCount, Bool.or_eq_true, ih]
    cases h : isPrefixL p (c :: rest) with
    | false => simp [h]
    | true => simp [h]

theorem replaceFirst_of_not_contains (p r s : List Char)
    (h : strContains p s = false) : replaceFirst p r s = s := by
  induction s with
  | nil => rfl
  | cons c rest ih =>
    simp only [strContains, Bool.or_eq_false_iff] at h
    simp only [replaceFirst, h.1, Bool.false_eq_true, if_false, ih h.2]

theorem dropWhile_append_of_all (p : Char → Bool) (l r : List Char)
    (h : ∀ c ∈ l, p c = true) :
    (l ++ r).dropWhile p = r.dropWhile p := by
  induction l with
  | nil => rfl
  | cons a as ih =>
    simp only [List.cons_append, List.dropWhile_cons,
      h a (List.mem_cons_self a as), if_true]
    exact ih (fun c hc => h c (List.mem_cons_of_mem a hc))

theorem dropWhile_cons_of_neg (p : Char → Bool) (a : Char) (l : List Char)
    (h : p a = false) : (a :: l).dropWhile p = a :: l := by
  simp [List.dropWhile_cons, h]

theorem takeWhile_append_stop (p : Char → Bool) (l : List Char) (x : Char)
    (r : List Char) (h : ∀ c ∈ l, p c = true) (hx : p x = false) :
    (l ++ x :: r).takeWhile p = l := by
  induction l with
  | nil => simp [List.takeWhile_cons, hx]
  | cons a as ih =>
    simp only [List.cons_append, List.takeWhile_cons,
      h a (List.mem_cons_self a as), if_true, List.cons.injEq, true_and]
    exact ih (fun c hc => h c (List.mem_cons_of_mem a hc))

theorem dropWhile_append_stop (p : Char → Bool) (l : List Char) (x : Char)
    (r : List Char) (h : ∀ c ∈ l, p c = true) (hx : p x = false) :
    (l ++ x :: r).dropWhile p = x :: r := by
  rw [dropWhile_append_of_all p l (x :: r) h, dropWhile_cons_of_neg p x r hx]

theorem pySpace_cases (c : Char) (h : pySpace c = true) :
    c = ' ' ∨ c = '\t' ∨ c = '\n' ∨ c = '\r' ∨ c = '\x0b' ∨ c = '\x0c' := by
  simp only [pySpace, Bool.or_eq_true, decide_eq_true_eq] at h
  tauto

theorem pyDigit_not_space (c : Char) (h : pyDigit c = true) :
    pySpace c = false := by
  by_contra hs
  rcases pySpace_cases c (by revert hs; cases pySpace c <;> simp) with
    rfl | rfl | rfl | rfl | rfl | rfl <;> simp [pyDigit] at h

/-- The leftmost-occurrence decomposition performed by
`s.replace(pat, rep, 1)`: for a line containing `pat`, the result is the
line with exactly its first occurrence of `pat` replaced by `rep` and
every other character unchanged. -/
theorem replaceFirst_decomp (pat rep s : List Char) (hp : pat ≠ [])
    (h : strContains pat s = true) :
    ∃ pre post, s = pre ++ pat ++ post ∧
      (∀ j, j < pre.length → isPrefixL pat (s.drop j) = false) ∧
      replaceFirst pat rep s = pre ++ rep ++ post := by
  induction s with
  | nil =>
    exfalso
    cases pat with
    | nil => exact hp rfl
    | cons a as => simp [strContains, isPrefixL] at h
  | cons c rest ih =>
    by_cases hpre : isPrefixL pat (c :: rest) = true
    · obtain ⟨t, ht⟩ := (isPrefixL_iff _ _).mp hpre
      refine ⟨[], t, by simpa using ht, by simp, ?_⟩
      simp only [replaceFirst, hpre, if_true, List.nil_append]
      rw [ht, List.drop_left]
    · have hc : strContains pat rest = true := by
        have := h
        simp only [strContains, Bool.or_eq_true] at this
        rcases this with h1 | h2
        · exact absurd h1 hpre
        · exact h2
      obtain ⟨pre, post, hs, hmin, hrep⟩ := ih hc
      refine ⟨c :: pre, post, by simp [hs], ?_, ?_⟩
      · intro j hj
        cases j with
        | zero =>
          simpa using (by revert hpre; cases isPrefixL pat (c :: rest) <;> simp)
        | succ j' =>
          simp only [List.length_cons, Nat.succ_lt_succ_iff] at hj
          simpa using hmin j' hj
      · simp only [replaceFirst, hpre, Bool.false_eq_true, if_false,
          List.cons_append]
        rw [hrep]

/-! ## Claim theorems: identifier extraction (C1) -/

/-- C1.  The spec and the code's own comment (`# T-SF02, T-SF03, etc.`)
say a text containing `T-SF03` yields the identifier `T-SF03`; the first
pattern `r'\b(T-\w+-\d+)\b'` in fact requires a second hyphen before the
digits, so `extract_task_id` returns `None` on such texts — while `H-08`
and the no-match case behave as claimed. -/
theorem extract_task_id_spec_eval :
    extract_task_id (strL "T-SF03") = none ∧
    extract_task_id (strL "task T-SF03 is done") = none ∧
    extract_task_id (strL "H-08") = some (strL "H-08") ∧
    extract_task_id (strL "see H-08 now") = some (strL "H-08") ∧
    extract_task_id (strL "no identifier at all") = none := by
  refine ⟨?_, ?_, ?_, ?_, ?_⟩ <;> decide

/-! ## Claim theorems: validator status (C4, C10) -/

/-- The status field of a validation, expressed through its other two
fields (shared by the C4 and C10 theorems). -/
theorem validateStatusAux
    (gitLog : List Char → Except (List Char) (List Char))
    (grep : List Char → Option (Int × List Char)) (t : MdTask) :
    ((validate_one gitLog grep t).status = Status.likely_complete ↔
      ((validate_one gitLog grep t).has_commit = true ∨
        anyCode (validate_one gitLog grep t).has_code = true)) ∧
    ((validate_one gitLog grep t).status = Status.pending ↔
      ¬((validate_one gitLog grep t).has_commit = true ∨
        anyCode (validate_one gitLog grep t).has_code = true)) := by
  have hs : (validate_one gitLog grep t).status =
      (if (validate_one gitLog grep t).has_commit
          || anyCode (validate_one gitLog grep t).has_code
        then Status.likely_complete else Status.pending) := rfl
  cases hh : ((validate_one gitLog grep t).has_commit
      || anyCode (validate_one gitLog grep t).has_code) with
  | false =>
    obtain ⟨ha, hb⟩ := Bool.or_eq_false_iff.mp hh
    refine ⟨?_, ?_⟩ <;> rw [hs, hh] <;> simp [ha, hb]
  | true =>
    have hab : (validate_one gitLog grep t).has_commit = true ∨
        anyCode (validate_one gitLog grep t).has_code = true := by
      simpa using hh
    refine ⟨by rw [hs, hh]; simpa using hab, ?_⟩
    rw [hs, hh]
    simp only [if_pos rfl]
    simp
    intro h
    rcases hab with h2 | h2
    · rw [h] at h2
      exact absurd h2 (by simp)
    · exact h2

/-- The `has_tests` and `has_config` fields of a code check are never set
(shared by the C10 theorem). -/
theorem checkCodeFieldsAux (grep : List Char → Option (Int × List Char))
    (text fp : List Char) :
    (check_code_exists grep text fp).has_tests = false ∧
    (check_code_exists grep text fp).has_config = false := by
  by_cases h : (importantKeywords text).isEmpty = true
  · simp [check_code_exists, h]
  · simp [check_code_exists, h]

/-- C4.  For every task record and every behaviour of the git oracles, the
status assigned by the validator is `likely_complete` exactly when the
commit signal is true or some code-evidence signal is true, and `pending`
exactly otherwise: the two signals are combined by disjunction. -/
theorem validate_status_disjunction
    (gitLog : List Char → Except (List Char) (List Char))
    (grep : List Char → Option (Int × List Char)) (t : MdTask) :
    ((validate_one gitLog grep t).status = Status.likely_complete ↔
      ((validate_one gitLog grep t).has_commit = true ∨
        anyCode (validate_one gitLog grep t).has_code = true)) ∧
    ((validate_one gitLog grep t).status = Status.pending ↔
      ¬((validate_one gitLog grep t).has_commit = true ∨
        anyCode (validate_one gitLog grep t).has_code = true)) :=
  validateStatusAux gitLog grep t

/-- C10.  In every validation the code-evidence fields `has_tests` and
`has_config` are `false` (`check_code_exists` can only ever set
`has_implementation`), so `any(code_check.values())` equals
`has_implementation` and the classification reduces to
`has_commit or has_implementation`. -/
theorem has_code_only_implementation
    (gitLog : List Char → Except (List Char) (List Char))
    (grep : List Char → Option (Int × List Char)) (t : MdTask) :
    (validate_one gitLog grep t).has_code.has_tests = false ∧
    (validate_one gitLog grep t).has_code.has_config = false ∧
    anyCode (validate_one gitLog grep t).has_code =
      (validate_one gitLog grep t).has_code.has_implementation ∧
    ((validate_one gitLog grep t).status = Status.likely_complete ↔
      ((validate_one gitLog grep t).has_commit = true ∨
        (validate_one gitLog grep t).has_code.has_implementation = true)) := by
  have hfield : (validate_one gitLog grep t).has_code =
      check_code_exists grep t.text t.file := rfl
  obtain ⟨ht, hcfg⟩ := checkCodeFieldsAux grep t.text t.file
  have hany : anyCode (validate_one gitLog grep t).has_code =
      (validate_one gitLog grep t).has_code.has_implementation := by
    rw [hfield]
    simp [anyCode, ht, hcfg]
  refine ⟨by rw [hfield]; exact ht, by rw [hfield]; exact hcfg, hany, ?_⟩
  exact (validateStatusAux gitLog grep t).1.trans (by rw [hany])

/-! ## Claim theorems: lookup failures fail open (C5) -/

theorem strContains_of_isPrefixL (p s : List Char)
    (h : isPrefixL p s = true) : strContains p s = true := by
  cases s with
  | nil => exact h
  | cons c rest =>
    simp only [strContains, Bool.or_eq_true]
    exact Or.inl h

/-- C5.  When every external lookup for a task fails (the git-log call
raises, every git-grep call raises), the failures are swallowed: the task
still gets a validation, with no commit evidence, no code evidence and
status `pending`; and validation always produces exactly one result per
input task. -/
theorem lookup_failures_fail_open
    (gitLog : List Char → Except (List Char) (List Char))
    (grep : List Char → Option (Int × List Char)) (t : MdTask)
    (hgit : ∀ i, ∃ e, gitLog i = Except.error e)
    (hgrep : ∀ kw, grep kw = none) :
    validate_one gitLog grep t = ⟨false, ⟨false, false, false⟩, Status.pending⟩ ∧
    ∀ tasks : List MdTask,
      (validate_tasks gitLog grep tasks).length = tasks.length := by
  have hcommit : ∀ i, check_git_commits gitLog i = false := by
    intro i
    unfold check_git_commits
    by_cases hie : i.isEmpty = true
    · simp [hie]
    · obtain ⟨e, he⟩ := hgit i
      have hpre : isPrefixL (strL "ERROR") (strL "ERROR: " ++ e) = true := by
        apply (isPrefixL_iff _ _).mpr
        exact ⟨strL ": " ++ e, by rw [← List.append_assoc]; rfl⟩
      have hcon : strContains (strL "ERROR") (run_git_command (gitLog i)) = true := by
        rw [he]
        exact strContains_of_isPrefixL _ _ hpre
      simp [hie, hcon]
  have hcode : check_code_exists grep t.text t.file = ⟨false, false, false⟩ := by
    unfold check_code_exists
    cases himp : importantKeywords t.text with
    | nil => simp
    | cons kw rest =>
      simp only [List.isEmpty_cons, Bool.false_eq_true, if_false]
      simp [grepLoop, hgrep kw]
  have h1 : (validate_one gitLog grep t).has_commit = false := by
    show (match t.task_id with
      | some i => if i.isEmpty then false else check_git_commits gitLog i
      | none => false) = false
    cases t.task_id with
    | none => rfl
    | some i =>
      by_cases hie : i.isEmpty = true
      · simp [hie]
      · simp [hie, hcommit i]
  have h2 : (validate_one gitLog grep t).has_code = ⟨false, false, false⟩ := by
    show check_code_exists grep t.text t.file = ⟨false, false, false⟩
    exact hcode
  have h3 : (validate_one gitLog grep t).status = Status.pending := by
    rw [(validateStatusAux gitLog grep t).2, h1, h2]
    simp [anyCode]
  constructor
  · have hsplit : validate_one gitLog grep t =
        ⟨(validate_one gitLog grep t).has_commit,
          (validate_one gitLog grep t).has_code,
          (validate_one gitLog grep t).status⟩ := rfl
    rw [hsplit, h1, h2, h3]
  · intro tasks
    simp [validate_tasks]

/-- Closed instance of the C5 theorem at concrete failing oracles and a
concrete task. -/
theorem lookup_failures_fail_open_witness :
    validate_one (fun _ => Except.error (strL "timed out")) (fun _ => none)
        ⟨strL "docs/plan.md", 3, strL "- [ ] build the frobnicator",
          TaskType.checkbox, some (strL "H-08")⟩ =
      ⟨false, ⟨false, false, false⟩, Status.pending⟩ ∧
    ∀ tasks : List MdTask,
      (validate_tasks (fun _ => Except.error (strL "timed out"))
        (fun _ => none) tasks).length = tasks.length :=
  lookup_failures_fail_open _ _ _ (fun _ => ⟨strL "timed out", rfl⟩)
    (fun _ => rfl)

/-! ## Claim theorems: out-of-range tasks are skipped (C9) -/

theorem updateStep_length (acc : List (List Char) × Nat) (t : TaskRec) :
    ((updateStep acc t).1).length = acc.1.length := by
  unfold updateStep
  split
  · split
    · dsimp only
      split
      · split
        · simp [List.length_set]
        · rfl
      · rfl
    · rfl
  · rfl

theorem updateStep_out_of_range (acc : List (List Char) × Nat) (t : TaskRec)
    (h : ¬(t.line - 1 < acc.1.length)) : updateStep acc t = acc := by
  unfold updateStep
  simp [h]

theorem foldl_update_length (tasks : List TaskRec) :
    ∀ (lines : List (List Char)) (cnt : Nat),
      ((tasks.foldl updateStep (lines, cnt)).1).length = lines.length := by
  induction tasks with
  | nil => intro lines cnt; rfl
  | cons t rest ih =>
    intro lines cnt
    rw [List.foldl_cons]
    have hrec := ih (updateStep (lines, cnt) t).1 (updateStep (lines, cnt) t).2
    rw [Prod.mk.eta] at hrec
    rw [hrec]
    exact updateStep_length (lines, cnt) t

/-- C9.  A checkbox task whose recorded (1-based) line number exceeds the
number of lines of the file is skipped: wherever it sits in the task list,
removing it does not change the updated lines nor the count. -/
theorem out_of_range_task_skipped (lines : List (List Char)) (t : TaskRec)
    (pre post : List TaskRec) (ht : t.type = TaskType.checkbox)
    (hline : lines.length < t.line) :
    update_file_checkboxes lines (pre ++ t :: post) =
      update_file_checkboxes lines (pre ++ post) := by
  unfold update_file_checkboxes
  rw [List.foldl_append, List.foldl_append, List.foldl_cons]
  have hlen : ((pre.foldl updateStep (lines, 0)).1).length = lines.length :=
    foldl_update_length pre lines 0
  have hstep : updateStep (pre.foldl updateStep (lines, 0)) t =
      pre.foldl updateStep (lines, 0) :=
    updateStep_out_of_range _ t (by rw [hlen]; omega)
  rw [hstep]

/-- Closed instance of the C9 theorem: a task recorded at line 5 of a
one-line file changes nothing. -/
theorem out_of_range_task_skipped_witness :
    update_file_checkboxes [strL "- [ ] only line of file"]
        [TaskRec.mk 5 TaskType.checkbox] =
      update_file_checkboxes [strL "- [ ] only line of file"] [] :=
  out_of_range_task_skipped [strL "- [ ] only line of file"]
    (TaskRec.mk 5 TaskType.checkbox) [] [] rfl (by decide)

/-! ## Claim theorems: fetcher retry discipline (C6) -/

/-- One unfolding of the retry loop (shared by the C6 theorem). -/
theorem downloadLoop_unfold {E D : Type} (net : Nat → Except E D)
    (retries a : Nat) (w : List Nat) :
    downloadLoop net retries a w =
      (match net a with
       | Except.ok d0 => (Except.ok d0, a, w)
       | Except.error e0 =>
         if _h : retries ≤ a then (Except.error e0, a, w)
         else downloadLoop net retries (a + 1) (w ++ [2 * a])) := by
  rw [downloadLoop]

/-- C6.  With the default `retries = 3` and a destination that needs
downloading: at most 3 attempts are performed; the sleeps between
consecutive attempts are `2 × attempt_number` seconds for each failed
attempt; if the download fails twice then succeeds, exactly 3 attempts
occur, the body is written, and the sleeps were 2 s then 4 s; if all 3
attempts fail, the last exception propagates after 3 attempts. -/
theorem download_retry_discipline {E D : Type} (net : Nat → Except E D)
    (e1 e2 e3 : E) (d : D) :
    (download net false 3).attempts ≤ 3 ∧
    (download net false 3).waits =
      (List.range ((download net false 3).attempts - 1)).map
        (fun i => 2 * (i + 1)) ∧
    (net 1 = Except.error e1 → net 2 = Except.error e2 →
      net 3 = Except.ok d →
      download net false 3 = ⟨Except.ok (), some d, 3, [2, 4]⟩) ∧
    (net 1 = Except.error e1 → net 2 = Except.error e2 →
      net 3 = Except.error e3 →
      download net false 3 = ⟨Except.error e3, none, 3, [2, 4]⟩) := by
  cases h1 : net 1 with
  | ok d1 =>
    have hL : downloadLoop net 3 1 [] = (Except.ok d1, 1, []) := by
      rw [downloadLoop_unfold, h1]
    have hd : download net false 3 = ⟨Except.ok (), some d1, 1, []⟩ := by
      unfold download
      rw [if_neg (by simp), hL]
    refine ⟨by rw [hd]; all_goals norm_num, by rw [hd]; rfl, ?_, ?_⟩ <;>
      (intro ha hb hc; simp at ha)
  | error f1 =>
    have hL1 : downloadLoop net 3 1 [] = downloadLoop net 3 2 [2] := by
      rw [downloadLoop_unfold, h1]
      norm_num
    cases h2 : net 2 with
    | ok d2 =>
      have hL : downloadLoop net 3 1 [] = (Except.ok d2, 2, [2]) := by
        rw [hL1, downloadLoop_unfold, h2]
      have hd : download net false 3 = ⟨Except.ok (), some d2, 2, [2]⟩ := by
        unfold download
        rw [if_neg (by simp), hL]
      refine ⟨by rw [hd]; all_goals norm_num, by rw [hd]; rfl, ?_, ?_⟩ <;>
        (intro ha hb hc; simp at hb)
    | error f2 =>
      have hL2 : downloadLoop net 3 1 [] = downloadLoop net 3 3 [2, 4] := by
        rw [hL1, downloadLoop_unfold, h2]
        norm_num
      cases h3 : net 3 with
      | ok d3 =>
        have hL : downloadLoop net 3 1 [] = (Except.ok d3, 3, [2, 4]) := by
          rw [hL2, downloadLoop_unfold, h3]
        have hd : download net false 3 = ⟨Except.ok (), some d3, 3, [2, 4]⟩ := by
          unfold download
          rw [if_neg (by simp), hL]
        refine ⟨by rw [hd]; all_goals norm_num, by rw [hd]; rfl, ?_, ?_⟩
        · intro ha hb hc
          simp only [Except.ok.injEq] at hc
          rw [hd, hc]
        · intro ha hb hc
          simp at hc
      | error f3 =>
        have hL : downloadLoop net 3 1 [] = (Except.error f3, 3, [2, 4]) := by
          rw [hL2, downloadLoop_unfold, h3]
          norm_num
        have hd : download net false 3 = ⟨Except.error f3, none, 3, [2, 4]⟩ := by
          unfold download
          rw [if_neg (by simp), hL]
        refine ⟨by rw [hd]; all_goals norm_num, by rw [hd]; rfl, ?_, ?_⟩
        · intro ha hb hc
          simp at hc
        · intro ha hb hc
          simp only [Except.error.injEq] at hc
          rw [hd, hc]

/-- Closed instance of the fail-fail-succeed scenario of the C6 theorem:
with a network that fails on attempts 1 and 2 and succeeds on attempt 3,
exactly 3 attempts run, the body is written, and the backoffs are
2 s then 4 s. -/
theorem download_retry_discipline_witness :
    download (fun a => if a ≤ 2 then Except.error a else Except.ok 42)
        false 3 =
      ⟨Except.ok (), some 42, 3, [2, 4]⟩ :=
  (download_retry_discipline
      (fun a => if a ≤ 2 then Except.error a else Except.ok 42)
      1 2 3 42).2.2.1 rfl rfl rfl

/-! ## Claim theorems: the updater's frame effect (C3) -/

/-- C3.  For every file content and checkbox task whose recorded line is
in range: if that line still contains `[ ]`, the update replaces exactly
the first occurrence of `[ ]` on that line by `[x]` (every character
before and after it unchanged, witnessed by the `pre`/`post`
decomposition and its minimality clause) and leaves every other line
untouched (the result is a `set` at that one index); if the line no
longer contains `[ ]`, the file is left completely unmodified. -/
theorem update_frame_effect (lines : List (List Char)) (t : TaskRec)
    (ht : t.type = TaskType.checkbox) (h : t.line - 1 < lines.length) :
    (strContains uncheckedTok (lines.get ⟨t.line - 1, h⟩) = true →
      ∃ pre post,
        lines.get ⟨t.line - 1, h⟩ = pre ++ uncheckedTok ++ post ∧
        (∀ j, j < pre.length →
          isPrefixL uncheckedTok ((lines.get ⟨t.line - 1, h⟩).drop j) = false) ∧
        (update_file_checkboxes lines [t]).1 =
          lines.set (t.line - 1) (pre ++ checkedTok ++ post)) ∧
    (strContains uncheckedTok (lines.get ⟨t.line - 1, h⟩) = false →
      (update_file_checkboxes lines [t]).1 = lines) ∧
    ∀ j, j ≠ t.line - 1 →
      (update_file_checkboxes lines [t]).1.getD j [] = lines.getD j [] := by
  have hufc : update_file_checkboxes lines [t] = updateStep (lines, 0) t := rfl
  have hstep_pos : strContains uncheckedTok (lines.get ⟨t.line - 1, h⟩) = true →
      (update_file_checkboxes lines [t]).1 =
        lines.set (t.line - 1)
          (replaceFirst uncheckedTok checkedTok (lines.get ⟨t.line - 1, h⟩)) := by
    intro hc
    obtain ⟨pre, post, hdecomp, hmin, hrep⟩ :=
      replaceFirst_decomp uncheckedTok checkedTok _ (by decide) hc
    have hne : replaceFirst uncheckedTok checkedTok (lines.get ⟨t.line - 1, h⟩) ≠
        lines.get ⟨t.line - 1, h⟩ := by
      intro heq
      rw [hrep, hdecomp] at heq
      rw [List.append_assoc, List.append_assoc] at heq
      have h2 : checkedTok ++ post = uncheckedTok ++ post :=
        List.append_cancel_left heq
      simp [checkedTok, uncheckedTok] at h2
    rw [hufc]
    unfold updateStep
    rw [if_pos ht, dif_pos h]
    dsimp only
    rw [if_pos hc, if_pos hne]
  have hstep_neg : strContains uncheckedTok (lines.get ⟨t.line - 1, h⟩) = false →
      (update_file_checkboxes lines [t]).1 = lines := by
    intro hc
    have hc2 : strContains uncheckedTok lines[t.line - 1] = false := hc
    rw [hufc]
    unfold updateStep
    rw [if_pos ht, dif_pos h]
    dsimp only
    rw [if_neg (by simp [hc2])]
  refine ⟨?_, hstep_neg, ?_⟩
  · intro hc
    obtain ⟨pre, post, hdecomp, hmin, hrep⟩ :=
      replaceFirst_decomp uncheckedTok checkedTok _ (by decide) hc
    refine ⟨pre, post, hdecomp, hmin, ?_⟩
    rw [hstep_pos hc, hrep]
  · intro j hj
    cases hc : strContains uncheckedTok (lines.get ⟨t.line - 1, h⟩) with
    | true =>
      rw [hstep_pos hc, List.getD_eq_getElem?_getD, List.getD_eq_getElem?_getD,
        List.getElem?_set_ne (Ne.symm hj)]
    | false => rw [hstep_neg hc]

/-- Closed instance of the C3 theorem on a one-line file: the line's first
(and only) `[ ]` is decomposed and replaced, with minimality of the
occurrence position. -/
theorem update_frame_effect_witness :
    ∃ pre post,
      [strL "- [ ] ship the release notes now"].get ⟨0, Nat.zero_lt_one⟩ =
        pre ++ uncheckedTok ++ post ∧
      (∀ j, j < pre.length →
        isPrefixL uncheckedTok
          (([strL "- [ ] ship the release notes now"].get
            ⟨0, Nat.zero_lt_one⟩).drop j) = false) ∧
      (update_file_checkboxes [strL "- [ ] ship the release notes now"]
          [TaskRec.mk 1 TaskType.checkbox]).1 =
        [strL "- [ ] ship the release notes now"].set 0
          (pre ++ checkedTok ++ post) :=
  (update_frame_effect [strL "- [ ] ship the release notes now"]
    (TaskRec.mk 1 TaskType.checkbox) rfl (by decide)).1 (by decide)

/-! ## Claim theorems: updater idempotence (C2)

Occurrence-counting lemmas for the two tokens, then the two-pass
argument. -/

theorem occ_nil_unchecked : occCount uncheckedTok [] = 0 := by decide

theorem occ_checked_cons (t : List Char) :
    occCount uncheckedTok ('[' :: 'x' :: ']' :: t) = occCount uncheckedTok t := by
  simp [occCount, uncheckedTok, isPrefixL]

theorem occ_unchecked_cons (t : List Char) :
    occCount uncheckedTok ('[' :: ' ' :: ']' :: t) =
      1 + occCount uncheckedTok t := by
  simp [occCount, uncheckedTok, isPrefixL]

theorem occ_zero_of_not_contains (p s : List Char)
    (h : strContains p s = false) : occCount p s = 0 := by
  have := (strContains_iff_occCount p s).not
  rw [h] at this
  simp at this
  omega

theorem not_contains_of_occ_zero (p s : List Char)
    (h : occCount p s = 0) : strContains p s = false := by
  cases hc : strContains p s
  · rfl
  · have := (strContains_iff_occCount p s).mp hc
    omega

/-- Replacing the first `[ ]` by `[x]` cannot create a `[ ]` occurrence at
a position where there was none: if `[ ]` was not a prefix of `c :: rest`,
it is not a prefix of `c ::` the replaced `rest`. -/
theorem replace_no_new_prefix (c : Char) (rest : List Char)
    (h : isPrefixL uncheckedTok (c :: rest) = false) :
    isPrefixL uncheckedTok
      (c :: replaceFirst uncheckedTok checkedTok rest) = false := by
  by_contra hcon
  rw [Bool.not_eq_false] at hcon
  obtain ⟨u, hu⟩ := (isPrefixL_iff _ _).mp hcon
  rw [show uncheckedTok ++ u = '[' :: ' ' :: ']' :: u from rfl] at hu
  injection hu with hc hrest
  subst hc
  cases rest with
  | nil => simp [replaceFirst] at hrest
  | cons d rest2 =>
    by_cases hp : isPrefixL uncheckedTok (d :: rest2) = true
    · have hre : replaceFirst uncheckedTok checkedTok (d :: rest2) =
          '[' :: 'x' :: ']' :: (d :: rest2).drop uncheckedTok.length := by
        simp only [replaceFirst]
        rw [if_pos hp]
        rfl
      rw [hre] at hrest
      injection hrest with hbad
      exact absurd hbad (by decide)
    · have hre : replaceFirst uncheckedTok checkedTok (d :: rest2) =
          d :: replaceFirst uncheckedTok checkedTok rest2 := by
        simp only [replaceFirst]
        rw [if_neg hp]
      rw [hre] at hrest
      injection hrest with hd hrest2
      subst hd
      simp only [uncheckedTok, isPrefixL] at h
      simp at h
      cases rest2 with
      | nil => simp [replaceFirst] at hrest2
      | cons e rest3 =>
        simp only [isPrefixL] at h
        simp at h
        by_cases hp2 : isPrefixL uncheckedTok (e :: rest3) = true
        · have hre2 : replaceFirst uncheckedTok checkedTok (e :: rest3) =
              '[' :: 'x' :: ']' :: (e :: rest3).drop uncheckedTok.length := by
            simp only [replaceFirst]
            rw [if_pos hp2]
            rfl
          rw [hre2] at hrest2
          injection hrest2 with hbad
          exact absurd hbad (by decide)
        · have hre2 : replaceFirst uncheckedTok checkedTok (e :: rest3) =
              e :: replaceFirst uncheckedTok checkedTok rest3 := by
            simp only [replaceFirst]
            rw [if_neg hp2]
          rw [hre2] at hrest2
          injection hrest2 with hbad
          exact h hbad.symm

/-- Replacing the first `[ ]` by `[x]` removes exactly one occurrence. -/
theorem occ_replaceFirst (s : List Char)
    (h : strContains uncheckedTok s = true) :
    occCount uncheckedTok (replaceFirst uncheckedTok checkedTok s) =
      occCount uncheckedTok s - 1 := by
  induction s with
  | nil => simp [strContains, isPrefixL, uncheckedTok] at h
  | cons c rest ih =>
    by_cases hp : isPrefixL uncheckedTok (c :: rest) = true
    · obtain ⟨u, hu⟩ := (isPrefixL_iff _ _).mp hp
      rw [show uncheckedTok ++ u = '[' :: ' ' :: ']' :: u from rfl] at hu
      have hre : replaceFirst uncheckedTok checkedTok (c :: rest) =
          checkedTok ++ (c :: rest).drop uncheckedTok.length := by
        simp only [replaceFirst]
        rw [if_pos hp]
      rw [hre, hu]
      rw [show checkedTok ++ List.drop uncheckedTok.length
            ('[' :: ' ' :: ']' :: u) = '[' :: 'x' :: ']' :: u from rfl]
      rw [occ_checked_cons, occ_unchecked_cons]
      omega
    · have hcr : strContains uncheckedTok rest = true := by
        have hh := h
        simp only [strContains, Bool.or_eq_true] at hh
        rcases hh with h1 | h2
        · exact absurd h1 hp
        · exact h2
      have hre : replaceFirst uncheckedTok checkedTok (c :: rest) =
          c :: replaceFirst uncheckedTok checkedTok rest := by
        simp only [replaceFirst]
        rw [if_neg hp]
      rw [hre]
      have hnp := replace_no_new_prefix c rest (by
        revert hp
        cases isPrefixL uncheckedTok (c :: rest) <;> simp)
      have hocc1 : occCount uncheckedTok
          (c :: replaceFirst uncheckedTok checkedTok rest) =
          occCount uncheckedTok (replaceFirst uncheckedTok checkedTok rest) := by
        simp only [occCount, hnp]
        simp
      have hocc2 : occCount uncheckedTok (c :: rest) =
          occCount uncheckedTok rest := by
        simp only [occCount]
        rw [if_neg (by simpa using hp)]
        omega
      have hpos := (strContains_iff_occCount uncheckedTok rest).mp hcr
      rw [hocc1, hocc2, ih hcr]

/-- After replacing the only occurrence of `[ ]`, none is left. -/
theorem no_contains_after_replace (s : List Char)
    (h : occCount uncheckedTok s ≤ 1) :
    strContains uncheckedTok (replaceFirst uncheckedTok checkedTok s) = false := by
  cases hc : strContains uncheckedTok s
  · rw [replaceFirst_of_not_contains _ _ _ hc]
    exact hc
  · apply not_contains_of_occ_zero
    rw [occ_replaceFirst s hc]
    have := (strContains_iff_occCount uncheckedTok s).mp hc
    omega

/-- A line containing `[ ]` changes when its first `[ ]` becomes `[x]`. -/
theorem replaceFirst_ne (s : List Char)
    (h : strContains uncheckedTok s = true) :
    replaceFirst uncheckedTok checkedTok s ≠ s := by
  obtain ⟨pre, post, hdecomp, _, hrep⟩ :=
    replaceFirst_decomp uncheckedTok checkedTok s (by decide) h
  intro heq
  rw [hrep, hdecomp, List.append_assoc, List.append_assoc] at heq
  have h2 : checkedTok ++ post = uncheckedTok ++ post :=
    List.append_cancel_left heq
  simp [checkedTok, uncheckedTok] at h2

/-- The updater step when the guards all pass: the recorded line is
replaced and the count goes up by one. -/
theorem updateStep_eq_set (acc : List (List Char) × Nat) (t : TaskRec)
    (h1 : t.type = TaskType.checkbox) (h2 : t.line - 1 < acc.1.length)
    (h3 : strContains uncheckedTok (acc.1.get ⟨t.line - 1, h2⟩) = true) :
    updateStep acc t =
      (acc.1.set (t.line - 1)
        (replaceFirst uncheckedTok checkedTok (acc.1.get ⟨t.line - 1, h2⟩)),
       acc.2 + 1) := by
  unfold updateStep
  rw [if_pos h1, dif_pos h2]
  dsimp only
  rw [if_pos h3, if_pos (replaceFirst_ne _ h3)]

/-- The updater step when the recorded line no longer contains `[ ]`. -/
theorem updateStep_eq_of_not_contains (acc : List (List Char) × Nat)
    (t : TaskRec) (h2 : t.line - 1 < acc.1.length)
    (h3 : strContains uncheckedTok (acc.1.get ⟨t.line - 1, h2⟩) = false) :
    updateStep acc t = acc := by
  have h4 : strContains uncheckedTok acc.1[t.line - 1] = false := h3
  unfold updateStep
  by_cases h1 : t.type = TaskType.checkbox
  · rw [if_pos h1, dif_pos h2]
    dsimp only
    rw [if_neg (by simp [h4])]
  · rw [if_neg h1]

theorem getD_in_range (l : List (List Char)) (i : Nat) (h : i < l.length) :
    l.getD i [] = l.get ⟨i, h⟩ := by
  rw [List.getD_eq_getElem?_getD, List.getElem?_eq_getElem h]
  rfl

theorem getD_out_of_range (l : List (List Char)) (i : Nat)
    (h : l.length ≤ i) : l.getD i [] = [] := by
  rw [List.getD_eq_getElem?_getD, List.getElem?_eq_none h]
  rfl

theorem getD_set_self (l : List (List Char)) (i : Nat) (x : List Char)
    (h : i < l.length) : (l.set i x).getD i [] = x := by
  rw [List.getD_eq_getElem?_getD, List.getElem?_set_self h]
  rfl

/-- One updater step never increases the number of `[ ]` occurrences of
any line. -/
theorem updateStep_occ_le (acc : List (List Char) × Nat) (t : TaskRec)
    (i : Nat) :
    occCount uncheckedTok ((updateStep acc t).1.getD i []) ≤
      occCount uncheckedTok (acc.1.getD i []) := by
  by_cases h1 : t.type = TaskType.checkbox
  case neg =>
    rw [show updateStep acc t = acc from by unfold updateStep; rw [if_neg h1]]
  case pos =>
  by_cases h2 : t.line - 1 < acc.1.length
  case neg =>
    rw [updateStep_out_of_range acc t h2]
  case pos =>
  cases h3 : strContains uncheckedTok (acc.1.get ⟨t.line - 1, h2⟩) with
  | false =>
    rw [updateStep_eq_of_not_contains acc t h2 h3]
  | true =>
    rw [updateStep_eq_set acc t h1 h2 h3]
    by_cases hij : i = t.line - 1
    · subst hij
      rw [getD_set_self _ _ _ h2, getD_in_range _ _ h2,
        occ_replaceFirst _ h3]
      omega
    · have : (acc.1.set (t.line - 1)
          (replaceFirst uncheckedTok checkedTok
            (acc.1.get ⟨t.line - 1, h2⟩))).getD i [] = acc.1.getD i [] := by
        rw [List.getD_eq_getElem?_getD, List.getD_eq_getElem?_getD,
          List.getElem?_set_ne (fun hh => hij hh.symm)]
      rw [this]

/-- The whole pass never increases the number of `[ ]` occurrences of any
line. -/
theorem foldl_update_occ_le (tasks : List TaskRec) :
    ∀ (lines : List (List Char)) (cnt i : Nat),
      occCount uncheckedTok
          (((tasks.foldl updateStep (lines, cnt)).1).getD i []) ≤
        occCount uncheckedTok (lines.getD i []) := by
  induction tasks with
  | nil => intro lines cnt i; exact Nat.le_refl _
  | cons t rest ih =>
    intro lines cnt i
    rw [List.foldl_cons]
    have hrec := ih (updateStep (lines, cnt) t).1 (updateStep (lines, cnt) t).2 i
    rw [Prod.mk.eta] at hrec
    exact Nat.le_trans hrec (updateStep_occ_le (lines, cnt) t i)

/-- After one pass, every checkbox task's recorded line has no `[ ]`
occurrence left, provided each such line had at most one to begin with. -/
theorem foldl_update_clean (tasks : List TaskRec) :
    ∀ (lines : List (List Char)) (cnt : Nat),
      (∀ t ∈ tasks, t.type = TaskType.checkbox →
        occCount uncheckedTok (lines.getD (t.line - 1) []) ≤ 1) →
      ∀ t ∈ tasks, t.type = TaskType.checkbox →
        occCount uncheckedTok
          (((tasks.foldl updateStep (lines, cnt)).1).getD (t.line - 1) []) = 0 := by
  induction tasks with
  | nil => intro lines cnt hone t htm; cases htm
  | cons t0 rest ih =>
    intro lines cnt hone t htm htype
    rw [List.foldl_cons]
    have hstep_le : ∀ j, occCount uncheckedTok
        ((updateStep (lines, cnt) t0).1.getD j []) ≤
        occCount uncheckedTok (lines.getD j []) :=
      fun j => updateStep_occ_le (lines, cnt) t0 j
    rcases List.mem_cons.mp htm with rfl | hmem
    · -- the task at the head of the list: its line is cleaned by its own
      -- step and can only shrink afterwards
      have hzero : occCount uncheckedTok
          ((updateStep (lines, cnt) t).1.getD (t.line - 1) []) = 0 := by
        by_cases h2 : t.line - 1 < lines.length
        · cases h3 : strContains uncheckedTok (lines.get ⟨t.line - 1, h2⟩) with
          | false =>
            rw [updateStep_eq_of_not_contains (lines, cnt) t h2 h3,
              getD_in_range _ _ h2]
            exact occ_zero_of_not_contains _ _ h3
          | true =>
            rw [updateStep_eq_set (lines, cnt) t htype h2 h3,
              getD_set_self _ _ _ h2, occ_replaceFirst _ h3]
            have hle := hone t (List.mem_cons_self t rest) htype
            rw [getD_in_range _ _ h2] at hle
            omega
        · have hlen : ((updateStep (lines, cnt) t).1).length = lines.length :=
            updateStep_length (lines, cnt) t
          rw [getD_out_of_range _ _ (by omega)]
          exact occ_nil_unchecked
      have hrec := foldl_update_occ_le rest
        (updateStep (lines, cnt) t).1 (updateStep (lines, cnt) t).2 (t.line - 1)
      rw [Prod.mk.eta] at hrec
      omega
    · -- a later task: apply the induction hypothesis after the head step
      have hone2 : ∀ u ∈ rest, u.type = TaskType.checkbox →
          occCount uncheckedTok
            ((updateStep (lines, cnt) t0).1.getD (u.line - 1) []) ≤ 1 := by
        intro u hu hut
        exact Nat.le_trans (hstep_le (u.line - 1))
          (hone u (List.mem_cons_of_mem t0 hu) hut)
      have hrec := ih (updateStep (lines, cnt) t0).1
        (updateStep (lines, cnt) t0).2 hone2 t hmem htype
      rw [Prod.mk.eta] at hrec
      exact hrec

/-- A pass over lines in which no targeted line contains `[ ]` is the
identity. -/
theorem foldl_update_id (tasks : List TaskRec) :
    ∀ (lines : List (List Char)) (cnt : Nat),
      (∀ t ∈ tasks, t.type = TaskType.checkbox →
        occCount uncheckedTok (lines.getD (t.line - 1) []) = 0) →
      tasks.foldl updateStep (lines, cnt) = (lines, cnt) := by
  induction tasks with
  | nil => intro lines cnt hz; rfl
  | cons t0 rest ih =>
    intro lines cnt hz
    rw [List.foldl_cons]
    have hstep : updateStep (lines, cnt) t0 = (lines, cnt) := by
      by_cases h1 : t0.type = TaskType.checkbox
      · by_cases h2 : t0.line - 1 < lines.length
        · apply updateStep_eq_of_not_contains (lines, cnt) t0 h2
          have := hz t0 (List.mem_cons_self t0 rest) h1
          rw [getD_in_range _ _ h2] at this
          exact not_contains_of_occ_zero _ _ this
        · exact updateStep_out_of_range (lines, cnt) t0 h2
      · unfold updateStep
        rw [if_neg h1]
    rw [hstep]
    exact ih lines cnt (fun u hu hut => hz u (List.mem_cons_of_mem t0 hu) hut)

/-- C2 fails as stated: a checkbox line holding two `[ ]` tokens is
updated again by a second run (the first run only replaced the first
occurrence, and `'[ ]' in line` still holds). -/
theorem updater_not_idempotent_cex :
    (update_file_checkboxes
        (update_file_checkboxes [strL "- [ ] task alpha [ ] beta gamma"]
          [TaskRec.mk 1 TaskType.checkbox]).1
        [TaskRec.mk 1 TaskType.checkbox]).1 ≠
      (update_file_checkboxes [strL "- [ ] task alpha [ ] beta gamma"]
        [TaskRec.mk 1 TaskType.checkbox]).1 := by
  decide

/-- C2 (amended).  The per-file update is idempotent provided every
checkbox task's recorded line contains at most one occurrence of `[ ]`:
the second run then changes no line and checks off nothing. -/
theorem updater_idempotent_amended (lines : List (List Char))
    (tasks : List TaskRec)
    (hone : ∀ t ∈ tasks, t.type = TaskType.checkbox →
      occCount uncheckedTok (lines.getD (t.line - 1) []) ≤ 1) :
    update_file_checkboxes (update_file_checkboxes lines tasks).1 tasks =
      ((update_file_checkboxes lines tasks).1, 0) := by
  apply foldl_update_id
  intro t htm htype
  exact foldl_update_clean tasks lines 0 hone t htm htype

/-- Closed instance of the amended C2 theorem on a single-box line. -/
theorem updater_idempotent_amended_witness :
    update_file_checkboxes
        (update_file_checkboxes [strL "- [ ] single box task line here"]
          [TaskRec.mk 1 TaskType.checkbox]).1
        [TaskRec.mk 1 TaskType.checkbox] =
      ((update_file_checkboxes [strL "- [ ] single box task line here"]
        [TaskRec.mk 1 TaskType.checkbox]).1, 0) :=
  updater_idempotent_amended _ _ (by
    intro t htm htype
    simp only [List.mem_singleton] at htm
    subst htm
    decide)

/-! ## Claim theorems: the extractor's checkbox criterion (C8) -/

theorem isPrefixL_unchecked_append (rest : List Char) :
    isPrefixL uncheckedTok (uncheckedTok ++ rest) = true :=
  isPrefixL_append _ _

theorem dropWhile_space_of_unchecked (rest : List Char) :
    (uncheckedTok ++ rest).dropWhile pySpace = uncheckedTok ++ rest := by
  rw [show uncheckedTok ++ rest = '[' :: (' ' :: ']' :: rest) from rfl]
  rw [dropWhile_cons_of_neg pySpace '[' _ (by decide)]

theorem dropWhile_space_nonspace_head (ds w : List Char)
    (hne : ds ≠ []) (hdig : ∀ c ∈ ds, pyDigit c = true) :
    (ds ++ w).dropWhile pySpace = ds ++ w := by
  cases ds with
  | nil => exact absurd rfl hne
  | cons d0 ds2 =>
    rw [List.cons_append]
    exact dropWhile_cons_of_neg pySpace d0 _
      (pyDigit_not_space d0 (hdig d0 (List.mem_cons_self d0 ds2)))

/-- The code's two checkbox regexes hold of a line exactly when the line
decomposes as the specification describes: optional whitespace, a list
marker (`-`, `*`, or digits followed by `.`), optional whitespace, the
literal `[ ]`, and an arbitrary remainder. -/
theorem checkbox_pattern_iff (line : List Char) :
    (matchesBullet line || matchesNumbered line) = true ↔
      ∃ ws mk gap rest : List Char,
        (∀ c ∈ ws, pySpace c = true) ∧ (∀ c ∈ gap, pySpace c = true) ∧
        (mk = ['-'] ∨ mk = ['*'] ∨
          ∃ ds : List Char, ds ≠ [] ∧ (∀ c ∈ ds, pyDigit c = true) ∧
            mk = ds ++ ['.']) ∧
        line = ws ++ mk ++ gap ++ uncheckedTok ++ rest := by
  constructor
  · intro h
    simp only [Bool.or_eq_true] at h
    rcases h with hb | hn
    · -- the `[-*]` pattern
      unfold matchesBullet at hb
      cases hdw : line.dropWhile pySpace with
      | nil => rw [hdw] at hb; simp at hb
      | cons c rest2 =>
        rw [hdw] at hb
        dsimp only at hb
        rw [Bool.and_eq_true] at hb
        obtain ⟨hm, hpre⟩ := hb
        simp only [Bool.or_eq_true, decide_eq_true_eq] at hm
        obtain ⟨u, hu⟩ := (isPrefixL_iff _ _).mp hpre
        have heq1 : line = line.takeWhile pySpace ++ (c :: rest2) := by
          rw [← hdw, List.takeWhile_append_dropWhile]
        have heq2 : rest2 = rest2.takeWhile pySpace ++ (uncheckedTok ++ u) := by
          rw [← hu, List.takeWhile_append_dropWhile]
        refine ⟨line.takeWhile pySpace, [c], rest2.takeWhile pySpace, u,
          fun ch hch => List.mem_takeWhile_imp hch,
          fun ch hch => List.mem_takeWhile_imp hch, ?_, ?_⟩
        · rcases hm with rfl | rfl
          · exact Or.inl rfl
          · exact Or.inr (Or.inl rfl)
        · conv_lhs => rw [heq1]
          conv_lhs => rw [heq2]
          simp [List.append_assoc]
    · -- the `\d+\.` pattern
      unfold matchesNumbered at hn
      dsimp only at hn
      rw [Bool.and_eq_true] at hn
      obtain ⟨hne, hmatch⟩ := hn
      cases hdd : (line.dropWhile pySpace).dropWhile pyDigit with
      | nil => rw [hdd] at hmatch; simp at hmatch
      | cons c3 r3 =>
        rw [hdd] at hmatch
        dsimp only at hmatch
        rw [Bool.and_eq_true] at hmatch
        obtain ⟨hc3, hpre⟩ := hmatch
        rw [decide_eq_true_eq] at hc3
        subst hc3
        obtain ⟨u, hu⟩ := (isPrefixL_iff _ _).mp hpre
        have hdsne : (line.dropWhile pySpace).takeWhile pyDigit ≠ [] := by
          intro hcon
          rw [hcon] at hne
          simp at hne
        have heqA : line = line.takeWhile pySpace ++ line.dropWhile pySpace := by
          rw [List.takeWhile_append_dropWhile]
        have heqB : line.dropWhile pySpace =
            (line.dropWhile pySpace).takeWhile pyDigit ++ ('.' :: r3) := by
          rw [← hdd, List.takeWhile_append_dropWhile]
        have heqC : r3 = r3.takeWhile pySpace ++ (uncheckedTok ++ u) := by
          rw [← hu, List.takeWhile_append_dropWhile]
        refine ⟨line.takeWhile pySpace,
          (line.dropWhile pySpace).takeWhile pyDigit ++ ['.'],
          r3.takeWhile pySpace, u,
          fun ch hch => List.mem_takeWhile_imp hch,
          fun ch hch => List.mem_takeWhile_imp hch,
          Or.inr (Or.inr ⟨(line.dropWhile pySpace).takeWhile pyDigit, hdsne,
            fun ch hch => List.mem_takeWhile_imp hch, rfl⟩), ?_⟩
        conv_lhs => rw [heqA]
        conv_lhs => rw [heqB]
        conv_lhs => rw [heqC]
        simp [List.append_assoc]
  · rintro ⟨ws, mk, gap, rest, hws, hgap, hmk, rfl⟩
    simp only [Bool.or_eq_true]
    rcases hmk with rfl | rfl | ⟨ds, hds_ne, hds_dig, rfl⟩
    · -- marker `-`
      left
      unfold matchesBullet
      rw [show ws ++ ['-'] ++ gap ++ uncheckedTok ++ rest =
          ws ++ ('-' :: (gap ++ (uncheckedTok ++ rest))) from by
        simp [List.append_assoc]]
      rw [dropWhile_append_of_all pySpace ws _ hws]
      rw [dropWhile_cons_of_neg pySpace '-' _ (by decide)]
      dsimp only
      rw [dropWhile_append_of_all pySpace gap _ hgap,
        dropWhile_space_of_unchecked, isPrefixL_unchecked_append]
      decide
    · -- marker `*`
      left
      unfold matchesBullet
      rw [show ws ++ ['*'] ++ gap ++ uncheckedTok ++ rest =
          ws ++ ('*' :: (gap ++ (uncheckedTok ++ rest))) from by
        simp [List.append_assoc]]
      rw [dropWhile_append_of_all pySpace ws _ hws]
      rw [dropWhile_cons_of_neg pySpace '*' _ (by decide)]
      dsimp only
      rw [dropWhile_append_of_all pySpace gap _ hgap,
        dropWhile_space_of_unchecked, isPrefixL_unchecked_append]
      decide
    · -- marker `N.`
      right
      unfold matchesNumbered
      dsimp only
      rw [show ws ++ (ds ++ ['.']) ++ gap ++ uncheckedTok ++ rest =
          ws ++ (ds ++ ('.' :: (gap ++ (uncheckedTok ++ rest)))) from by
        simp [List.append_assoc]]
      rw [dropWhile_append_of_all pySpace ws _ hws]
      rw [dropWhile_space_nonspace_head ds _ hds_ne hds_dig]
      rw [takeWhile_append_stop pyDigit ds '.' _ hds_dig (by decide),
        dropWhile_append_stop pyDigit ds '.' _ hds_dig (by decide)]
      dsimp only
      rw [dropWhile_append_of_all pySpace gap _ hgap,
        dropWhile_space_of_unchecked, isPrefixL_unchecked_append]
      cases ds with
      | nil => exact absurd rfl hds_ne
      | cons d0 ds2 => simp

/-- The classification of a line as an unchecked-checkbox task is
equivalent to the specification's criterion. -/
theorem classify_checkbox_iff (line : List Char) :
    classify_line line = some TaskType.checkbox ↔ specCheckboxLine line := by
  unfold classify_line specCheckboxLine
  by_cases hg : (matchesBullet line || matchesNumbered line) = true
  · rw [if_pos hg]
    by_cases ha : hasAnnotationMarker line = true
    · rw [if_pos ha]
      constructor
      · intro hcon
        exact Option.noConfusion hcon
      · rintro ⟨_, h1, h2, h3, _⟩
        unfold hasAnnotationMarker at ha
        simp only [Bool.or_eq_true] at ha
        rcases ha with (h | h) | h
        · rw [h1] at h; exact Bool.noConfusion h
        · rw [h2] at h; exact Bool.noConfusion h
        · rw [h3] at h; exact Bool.noConfusion h
    · rw [if_neg ha]
      have ha' : hasAnnotationMarker line = false := by simpa using ha
      unfold hasAnnotationMarker at ha'
      rw [Bool.or_eq_false_iff] at ha'
      obtain ⟨hAB, hC⟩ := ha'
      rw [Bool.or_eq_false_iff] at hAB
      obtain ⟨hA, hB⟩ := hAB
      by_cases hl : (pyStrip line).length < 20
      · rw [if_pos hl]
        constructor
        · intro hcon
          exact Option.noConfusion hcon
        · rintro ⟨_, _, _, _, hlen⟩
          omega
      · rw [if_neg hl]
        constructor
        · intro _
          exact ⟨(checkbox_pattern_iff line).mp hg, hA, hB, hC, by omega⟩
        · intro _
          rfl
  · rw [if_neg hg]
    constructor
    · intro hcon
      by_cases h1 : strContains (strL "[x]") (lowerL line) = true
      · rw [if_pos h1] at hcon
        exact Option.noConfusion hcon
      · rw [if_neg h1] at hcon
        by_cases h2 : hasTodoMarker line = true
        · rw [if_pos h2] at hcon
          by_cases h3 : todoFalsePositive line = true
          · rw [if_pos h3] at hcon
            exact Option.noConfusion hcon
          · rw [if_neg h3] at hcon
            simp at hcon
        · rw [if_neg h2] at hcon
          exact Option.noConfusion hcon
    · rintro ⟨hdec, _, _, _, _⟩
      exact absurd ((checkbox_pattern_iff line).mpr hdec) hg

/-- C8.  A markdown line is recorded as an unchecked-checkbox task exactly
when it starts (after optional whitespace) with a list marker followed
(possibly after whitespace) by the `[ ]` token, contains none of the
annotation markers `(REJECT` / `(WARNING` / `(ACCEPT`, and has trimmed
length at least 20; in particular the spec's two examples classify as
stated. -/
theorem extractor_checkbox_criterion :
    (∀ line : List Char,
      (classify_line line = some TaskType.checkbox ↔ specCheckboxLine line)) ∧
    classify_line
      (strL "- [ ] Implement feature X with sufficient detail here") =
        some TaskType.checkbox ∧
    classify_line (strL "- [ ] short") = none := by
  refine ⟨classify_checkbox_iff, by decide, by decide⟩

/-! ## Claim theorems: checksum writer output (C7) -/

theorem lexLe_total (a : List Char) : ∀ b, (lexLe a b || lexLe b a) = true := by
  induction a with
  | nil => intro b; simp [lexLe]
  | cons x xs ih =>
    intro b
    cases b with
    | nil => simp [lexLe]
    | cons y ys =>
      simp only [lexLe]
      rcases lt_trichotomy x y with h | h | h
      · rw [if_pos h]
        simp
      · subst h
        have hni : ¬(x < x) := lt_irrefl x
        rw [if_neg hni, if_neg hni, if_neg hni, if_neg hni]
        exact ih ys
      · rw [if_neg (lt_asymm h)]
        simp [h]

theorem lexLe_trans (a : List Char) : ∀ b c, lexLe a b = true →
    lexLe b c = true → lexLe a c = true := by
  induction a with
  | nil => intro b c hab hbc; simp [lexLe]
  | cons x xs ih =>
    intro b c hab hbc
    cases b with
    | nil => simp [lexLe] at hab
    | cons y ys =>
      cases c with
      | nil => simp [lexLe] at hbc
      | cons z zs =>
        simp only [lexLe] at hab hbc ⊢
        by_cases h1 : x < y
        · by_cases h2 : y < z
          · rw [if_pos (lt_trans h1 h2)]
          · rw [if_neg h2] at hbc
            by_cases h3 : z < y
            · rw [if_pos h3] at hbc
              exact Bool.noConfusion hbc
            · have hyz : y = z := le_antisymm (not_lt.mp h3) (not_lt.mp h2)
              subst hyz
              rw [if_pos h1]
        · rw [if_neg h1] at hab
          by_cases h1b : y < x
          · rw [if_pos h1b] at hab
            exact Bool.noConfusion hab
          · rw [if_neg h1b] at hab
            have hxy : x = y := le_antisymm (not_lt.mp h1b) (not_lt.mp h1)
            subst hxy
            by_cases h2 : x < z
            · rw [if_pos h2]
            · rw [if_neg h2] at hbc ⊢
              by_cases h3 : z < x
              · rw [if_pos h3] at hbc
                exact Bool.noConfusion hbc
              · rw [if_neg h3] at hbc ⊢
                exact ih ys zs hab hbc

theorem relLe_total (a b : FsEntry) : (relLe a b || relLe b a) = true :=
  lexLe_total _ _

theorem relLe_trans (a b c : FsEntry) (hab : relLe a b = true)
    (hbc : relLe b c = true) : relLe a c = true :=
  lexLe_trans _ _ _ hab hbc

/-- The code's inclusion test agrees pointwise with the amended
specification criterion. -/
theorem keep_eq_amended (rootParts : List String) (e : FsEntry) :
    keepEntry rootParts e = amendedIncludedEntry rootParts e := by
  have hc : excludedNames.contains (entryName e) =
      (decide (entryName e = "checksums.sha256") ||
        decide (entryName e = "_download_list.tsv")) := by
    by_cases h2 : entryName e = "checksums.sha256" <;>
      by_cases h3 : entryName e = "_download_list.tsv" <;>
      simp [excludedNames, h2, h3]
  unfold keepEntry amendedIncludedEntry specIncludedEntry
  rw [hc]
  cases e.isFile <;>
    cases h2 : decide (entryName e = "checksums.sha256") <;>
    cases h3 : decide (entryName e = "_download_list.tsv") <;>
    cases h4 : (rootParts ++ e.relParts).contains ".git" <;>
    cases h5 : decide (pySuffix (entryName e).toList = strL ".zip") <;>
    simp [h2, h3, h4, h5]

/-- C7 fails as stated: a regular file named `_download_list.tsv` meets
every inclusion condition the claim lists (regular, not the checksum
output file, no version-control path component, not an archive by
extension) yet the writer emits no line for it. -/
theorem checksum_excludes_download_list_cex :
    specIncludedEntry [] (FsEntry.mk ["_download_list.tsv"] true) = true ∧
    checksum_lines [] (fun _ => "d41d8cd9")
      [FsEntry.mk ["_download_list.tsv"] true] = [] := by
  constructor
  · decide
  · unfold checksum_lines sortedEntries
    rw [show List.filter (keepEntry ([] : List String))
        [FsEntry.mk ["_download_list.tsv"] true] = [] from by decide]
    rw [List.mergeSort_nil]
    rfl

/-- C7 (amended).  For every enumerated tree: the output ends with a
newline; its lines are, in order, `digest ++ "  " ++ relative path` of
the retained entries; the retained entries are exactly one per file
satisfying the amended inclusion criterion (which also excludes the
helper file `_download_list.tsv`); they are sorted by relative path
string; and every file failing the criterion is dropped. -/
theorem checksum_writer_output (rootParts : List String)
    (digest : FsEntry → String) (found : List FsEntry) :
    (∃ s, checksums_output rootParts digest found = s ++ "\n") ∧
    checksum_lines rootParts digest found =
      (sortedEntries rootParts found).map (checksumLine digest) ∧
    (sortedEntries rootParts found).Perm
      (found.filter (amendedIncludedEntry rootParts)) ∧
    List.Pairwise (fun a b => relLe a b = true)
      (sortedEntries rootParts found) ∧
    ∀ e ∈ found,
      (e ∈ sortedEntries rootParts found ↔
        amendedIncludedEntry rootParts e = true) := by
  have hfilter : found.filter (keepEntry rootParts) =
      found.filter (amendedIncludedEntry rootParts) :=
    List.filter_congr (fun e _ => keep_eq_amended rootParts e)
  have hperm : (sortedEntries rootParts found).Perm
      (found.filter (amendedIncludedEntry rootParts)) := by
    unfold sortedEntries
    rw [← hfilter]
    exact List.mergeSort_perm _ _
  refine ⟨⟨String.intercalate "\n" (checksum_lines rootParts digest found), rfl⟩,
    rfl, hperm, ?_, ?_⟩
  · unfold sortedEntries
    exact @List.sorted_mergeSort FsEntry relLe relLe_trans relLe_total _
  · intro e hmem
    rw [hperm.mem_iff, List.mem_filter]
    constructor
    · exact fun h => h.2
    · exact fun h => ⟨hmem, h⟩
